import Mathlib

/-!
Shallow embedding of the replication/durability core of the graph_store
repository (src/lib.rs, src/graph.rs, src/mutations_log.rs,
src/mutations_log_store.rs, src/remotes.rs, src/store.rs) together with
proofs settling the specification claims.

Modelling conventions:
* petgraph's `StableGraph` is modelled as a list of `(node_index, payload)`
  slots plus a list of `(from_index, to_index, payload)` edges, in index
  order; petgraph's free-slot reuse is abstracted to a fresh-index counter
  (a fresh slot is never an existing index in either scheme, which is the
  only property the code relies on).
* `GraphStore::save_to_file` (src/store.rs) either succeeds returning the
  graph unchanged or fails with `FileSaveError`; it is modelled by a
  boolean `save_ok` parameter.
* Rust `HashMap` state is modelled as an association list; insertion
  replaces existing bindings, removal drops them all, matching the
  impossibility of duplicate keys in a `HashMap`.
-/

namespace GraphStore

/-- Error enum from src/lib.rs `StoreError` (the variants the model uses). -/
inductive StoreError where
  | GraphNotFound
  | EdgeNotFound
  | EdgeNotCreated
  | EdgeNotDeleted
  | NodeNotFound
  | NodeNotCreated
  | NodeNotDeleted
  | ConflictDuplicateNode
  | ConflictDuplicateEdge
  | FileSaveError
  | WriteLogError
  | SyncError
  | ClientError
  | MailboxError
  deriving DecidableEq, Repr

instance {e a : Type} [DecidableEq e] [DecidableEq a] :
    DecidableEq (Except e a) := fun x y =>
  match x, y with
  | .ok v, .ok w => decidable_of_iff (v = w) (by simp)
  | .error v, .error w => decidable_of_iff (v = w) (by simp)
  | .ok _, .error _ => isFalse (by simp)
  | .error _, .ok _ => isFalse (by simp)

/-- Mutation sum type from src/lib.rs `GraphMutation<N, E, I>`. -/
inductive GraphMutation (N E I : Type) where
  | AddEdge (from_k to_k : I) (edge : E)
  | RemoveEdge (from_k to_k : I)
  | AddNode (key : I) (node : N)
  | RemoveNode (key : I)
  deriving DecidableEq, Repr

/-- Responses from the Graph mutation handler, src/lib.rs `GraphResponse`
(the variants produced by `Handler<GraphMutation> for Graph`). -/
inductive GraphResponse (N E : Type) where
  | Empty
  | Node (node : N)
  | Edge (edge : E)
  deriving DecidableEq, Repr

/-- State of src/graph.rs `Graph<N, E, I>`: the petgraph `StableGraph`
(`inner_nodes` in node-index order, `inner_edges` in edge-index order),
the `nodes_map : HashMap<I, NodeIndex>`, and the fresh-index counter. -/
structure Graph (N E I : Type) where
  inner_nodes : List (Nat × N)
  inner_edges : List (Nat × Nat × E)
  nodes_map : List (I × Nat)
  next_idx : Nat
  deriving DecidableEq, Repr

/-- The empty graph (petgraph `StableGraph::default()` with an empty map). -/
def Graph.empty (N E I : Type) : Graph N E I :=
  { inner_nodes := [], inner_edges := [], nodes_map := [], next_idx := 0 }

variable {N E I : Type} [DecidableEq N] [DecidableEq E] [DecidableEq I]

/-- `HashMap::get` on the association-list model of `nodes_map`. -/
def mapLookup (m : List (I × Nat)) (k : I) : Option Nat :=
  (m.find? (fun p => p.1 == k)).map (·.2)

/-- `HashMap` insertion at a vacant entry (the only insertions the code
performs go through `Entry::Vacant`). -/
def mapInsert (m : List (I × Nat)) (k : I) (v : Nat) : List (I × Nat) :=
  (k, v) :: m

/-- `OccupiedEntry::remove` on the association-list model; a `HashMap`
cannot hold duplicate keys, so dropping every binding of `k` is faithful. -/
def mapRemove (m : List (I × Nat)) (k : I) : List (I × Nat) :=
  m.filter (fun p => !(p.1 == k))

/-- petgraph `StableGraph::find_edge`: the first edge (in edge-index order)
from `fi` to `ti`. -/
def findEdge (es : List (Nat × Nat × E)) (fi ti : Nat) : Option (Nat × Nat × E) :=
  es.find? (fun e => e.1 == fi && e.2.1 == ti)

/-- petgraph `StableGraph::remove_edge` at the index found by `find_edge`:
removes the first matching edge. -/
def removeEdgeList (es : List (Nat × Nat × E)) (fi ti : Nat) : List (Nat × Nat × E) :=
  match es with
  | [] => []
  | e :: rest =>
    if e.1 == fi && e.2.1 == ti then rest else e :: removeEdgeList rest fi ti

/-- src/graph.rs `Graph::get_node_index`. -/
def get_node_index (g : Graph N E I) (key : I) : Except StoreError Nat :=
  match mapLookup g.nodes_map key with
  | some idx => .ok idx
  | none => .error .NodeNotFound

/-- src/graph.rs `Graph::get_edge`. -/
def get_edge (g : Graph N E I) (from_k to_k : I) : Except StoreError E :=
  match mapLookup g.nodes_map from_k, mapLookup g.nodes_map to_k with
  | some fi, some ti =>
    match findEdge g.inner_edges fi ti with
    | some e => .ok e.2.2
    | none => .error .EdgeNotFound
  | _, _ => .error .EdgeNotFound

/-- src/store.rs `GraphStore::save_to_file`: returns the saved graph
unchanged on success, `FileSaveError` on an I/O or encoding failure
(modelled by the `save_ok` flag). -/
def save_to_file (save_ok : Bool) {α : Type} (data : α) : Except StoreError α :=
  if save_ok then .ok data else .error .FileSaveError

/-- src/graph.rs `Graph::add_edge` (lines 168-183): duplicate check via
`get_edge`, endpoint lookup, mutation of a clone, snapshot save, then
installation of the clone. Returns the result and the new actor state. -/
def add_edge (g : Graph N E I) (from_k to_k : I) (edge : E) (save_ok : Bool) :
    Except StoreError Unit × Graph N E I :=
  match get_edge g from_k to_k with
  | .ok _ => (.error .ConflictDuplicateEdge, g)
  | .error _ =>
    match get_node_index g from_k with
    | .error e => (.error e, g)
    | .ok fi =>
      match get_node_index g to_k with
      | .error e => (.error e, g)
      | .ok ti =>
        match save_to_file save_ok (g.inner_edges ++ [(fi, ti, edge)]) with
        | .error e => (.error e, g)
        | .ok es2 => (.ok (), { g with inner_edges := es2 })

/-- src/graph.rs `Graph::remove_edge` (lines 185-206). -/
def remove_edge (g : Graph N E I) (from_k to_k : I) (save_ok : Bool) :
    Except StoreError E × Graph N E I :=
  match mapLookup g.nodes_map from_k, mapLookup g.nodes_map to_k with
  | some fi, some ti =>
    match findEdge g.inner_edges fi ti with
    | none => (.error .EdgeNotFound, g)
    | some e =>
      match save_to_file save_ok (removeEdgeList g.inner_edges fi ti) with
      | .error err => (.error err, g)
      | .ok es2 => (.ok e.2.2, { g with inner_edges := es2 })
  | _, _ => (.error .EdgeNotFound, g)

/-- src/graph.rs `Graph::add_node` (lines 208-222): on a vacant map entry,
a fresh node slot is added to a clone, the snapshot saved, and only then
the key inserted into `nodes_map`. -/
def add_node (g : Graph N E I) (key : I) (node : N) (save_ok : Bool) :
    Except StoreError N × Graph N E I :=
  match mapLookup g.nodes_map key with
  | some _ => (.error .ConflictDuplicateNode, g)
  | none =>
    match save_to_file save_ok (g.inner_nodes ++ [(g.next_idx, node)]) with
    | .error e => (.error e, g)
    | .ok ns2 =>
      (.ok node,
        { g with
          inner_nodes := ns2
          nodes_map := mapInsert g.nodes_map key g.next_idx
          next_idx := g.next_idx + 1 })

/-- petgraph `StableGraph::remove_node`: removes the slot and every
incident edge, returning the payload; `none` if the index is absent. -/
def removeNodeInner (g : Graph N E I) (idx : Nat) :
    Option (N × List (Nat × N) × List (Nat × Nat × E)) :=
  match (g.inner_nodes.find? (fun p => p.1 == idx)) with
  | none => none
  | some slot =>
    some (slot.2,
      g.inner_nodes.filter (fun p => !(p.1 == idx)),
      g.inner_edges.filter (fun e => !(e.1 == idx) && !(e.2.1 == idx)))

/-- src/graph.rs `Graph::remove_node` (lines 224-239): on an occupied map
entry, the node is removed from a clone, the snapshot saved, and only then
the key removed from `nodes_map`. -/
def remove_node (g : Graph N E I) (key : I) (save_ok : Bool) :
    Except StoreError N × Graph N E I :=
  match mapLookup g.nodes_map key with
  | none => (.error .NodeNotFound, g)
  | some idx =>
    match removeNodeInner g idx with
    | none => (.error .NodeNotDeleted, g)
    | some (node, ns2, es2) =>
      match save_to_file save_ok (ns2, es2) with
      | .error e => (.error e, g)
      | .ok p =>
        (.ok node,
          { g with
            inner_nodes := p.1
            inner_edges := p.2
            nodes_map := mapRemove g.nodes_map key })

/-- src/graph.rs `Handler<GraphMutation> for Graph` (lines 49-72):
dispatches the four mutation variants and wraps results. -/
def applyMutation (g : Graph N E I) (m : GraphMutation N E I) (save_ok : Bool) :
    Except StoreError (GraphResponse N E) × Graph N E I :=
  match m with
  | .AddEdge from_k to_k edge =>
    match add_edge g from_k to_k edge save_ok with
    | (.ok _, g2) => (.ok .Empty, g2)
    | (.error e, g2) => (.error e, g2)
  | .RemoveEdge from_k to_k =>
    match remove_edge g from_k to_k save_ok with
    | (.ok edge, g2) => (.ok (.Edge edge), g2)
    | (.error e, g2) => (.error e, g2)
  | .AddNode key node =>
    match add_node g key node save_ok with
    | (.ok n, g2) => (.ok (.Node n), g2)
    | (.error e, g2) => (.error e, g2)
  | .RemoveNode key =>
    match remove_node g key save_ok with
    | (.ok n, g2) => (.ok (.Node n), g2)
    | (.error e, g2) => (.error e, g2)

/-!
Log store model, from src/mutations_log_store.rs. The sqlite table
`mutations_log (id CHAR(32) PRIMARY KEY, mutation BLOB, committed BOOLEAN)`
is a list of rows in insertion order. The blob column holds
`bincode::serialize(mutation)`; bincode is deterministic and injective on
these payload types, so the row stores the mutation value itself.
-/

/-- A row of the `mutations_log` table: (id, mutation blob, committed). -/
abbrev LogTable (N E I : Type) := List (String × GraphMutation N E I × Bool)

/-- `SELECT` of the row with the given primary key. -/
def logLookup (t : LogTable N E I) (hash : String) :
    Option (GraphMutation N E I × Bool) :=
  (t.find? (fun r => r.1 == hash)).map (·.2)

/-- src/mutations_log_store.rs `MutationsLogStoreMessage::Add`
(lines 104-115): plain `INSERT` with committed=false; a primary-key
conflict fails the statement with `WriteLogError` and leaves the table
unchanged. Returns (rows-changed result, table). -/
def log_add (t : LogTable N E I) (hash : String) (m : GraphMutation N E I) :
    Except StoreError Nat × LogTable N E I :=
  match logLookup t hash with
  | some _ => (.error .WriteLogError, t)
  | none => (.ok 1, t ++ [(hash, m, false)])

/-- src/mutations_log_store.rs `MutationsLogStoreMessage::Commit`
(lines 116-129): `INSERT ... ON CONFLICT(id) DO UPDATE SET committed =
true`; inserts a committed row if the id is absent, otherwise flips the
existing row's committed flag to true leaving its blob unchanged. -/
def log_commit (t : LogTable N E I) (hash : String) (m : GraphMutation N E I) :
    Except StoreError Nat × LogTable N E I :=
  match logLookup t hash with
  | some _ =>
    (.ok 1, t.map (fun r => if r.1 == hash then (r.1, r.2.1, true) else r))
  | none => (.ok 1, t ++ [(hash, m, true)])

/-- Combined durable state owned by the MutationsLog pipeline: the log
store table and the Graph actor state. -/
structure SysState (N E I : Type) where
  log : LogTable N E I
  graph : Graph N E I
  deriving DecidableEq, Repr

/-- src/mutations_log.rs `MutationsLog::commit_mutation` (lines 69-79):
the LogStore message is awaited and must succeed (`??`) before the Graph
apply whose result is returned. Modelled from the spec: the store-side
handler for `MutationsLogMutation` is not under src/ (the store only
declares the `MutationsLogStoreMessage` handler); per the spec,
`commit(hash, mutation)` is the committed=true upsert, so the message
lands as `log_commit` keyed by the message's hash. `store_io` models an
sqlite-level failure of that awaited statement (none = statement runs);
`save_ok` models the Graph snapshot save. -/
def commit_mutation (st : SysState N E I) (hash : String)
    (m : GraphMutation N E I) (store_io : Option StoreError) (save_ok : Bool) :
    Except StoreError (GraphResponse N E) × SysState N E I :=
  match store_io with
  | some e => (.error e, st)
  | none =>
    let log2 := (log_commit st.log hash m).2
    match applyMutation st.graph m save_ok with
    | (res, g2) => (res, { log := log2, graph := g2 })

/-- src/mutations_log.rs `Handler<MutationsLogMutation> for MutationsLog`
(lines 193-206): a remote-originated commit delegates to
`commit_mutation`. -/
def handleRemoteCommit (st : SysState N E I) (hash : String)
    (m : GraphMutation N E I) (store_io : Option StoreError) (save_ok : Bool) :
    Except StoreError (GraphResponse N E) × SysState N E I :=
  commit_mutation st hash m store_io save_ok

/-!
Remotes model, from src/remotes.rs. The peer table maps an address to a
client handle plus the result of the last gossip exchange
(`remotes_log : Result<HashMap<String, bool>, StoreError>`); a peer is a
replication candidate iff that result is Ok.
-/

/-- One entry of the `Remotes::remotes` peer table (address plus whether
the entry's `remotes_log` is `Ok`, i.e. the last exchange succeeded). -/
structure RemotesEntry where
  addr : String
  log_ok : Bool
  deriving DecidableEq, Repr

/-- src/remotes.rs lines 83-93: the candidate clients for replication are
exactly the peers whose `remotes_log` is `Ok`. -/
def reachablePeers (remotes : List RemotesEntry) : List String :=
  remotes.filterMap (fun r => if r.log_ok then some r.addr else none)

/-- Characterisation of `SliceRandom::choose_multiple(rng, n)` on the
candidate list (src/remotes.rs line 97): it yields `min n candidates.length`
distinct elements of the candidate list; which ones is random. -/
def ValidSample (candidates sample : List String) (n : Nat) : Prop :=
  sample.Nodup ∧ sample ⊆ candidates ∧ sample.length = min n candidates.length

instance (candidates sample : List String) (n : Nat) :
    Decidable (ValidSample candidates sample n) := by
  unfold ValidSample; infer_instance

/-- src/remotes.rs lines 99-101: sequentially send the mutation to each
sampled peer and await it; the first failing acknowledgement aborts the
loop with that error (`??`), otherwise the handler returns Ok. -/
def sendLoop (ack : String → Except StoreError Unit) :
    List String → Except StoreError Unit
  | [] => .ok ()
  | p :: ps =>
    match ack p with
    | .error e => .error e
    | .ok _ => sendLoop ack ps

/-- Events of one `Propose` handler run, in execution order. `evLogAdd`
is the vocabulary for a LogStore append (committed=false insert); the
handler never emits it. -/
inductive PEv where
  | evPendingInsert (hash : String)
  | evRemotesFireForget
  | evRemotesSyncSend
  | evLogAdd (hash : String)
  | evLogCommit (hash : String)
  | evGraphApply
  deriving DecidableEq, Repr

/-- Result of one locally proposed mutation (`Handler<GraphMutation> for
MutationsLog`). -/
structure ProposeOutcome (N E I : Type) where
  result : Except StoreError (GraphResponse N E)
  log : LogTable N E I
  graph : Graph N E I
  trace : List PEv
  ff_contacted : List String
  sync_contacted : List String
  deriving Repr

/-- src/mutations_log.rs `Handler<GraphMutation> for MutationsLog`
(lines 91-120), the local Propose path:
1. compute the hash and insert into a local clone of
   `pending_mutations_log` (the clone is dropped, so the actor state is
   untouched);
2. `remotes.do_send(query)`: fire-and-forget dispatch of the same
   `MutationsLogMutation`; its outcome (`sendLoop ack_ff ff_sample`) is
   dropped unread;
3. `remotes.send(query).await??`: awaited synchronous replication; an
   error is returned to the caller with nothing else done;
4. on success, `commit_mutation`: the awaited LogStore upsert
   (failure modelled by `store_io`), then the Graph apply whose result is
   returned.
`ff_sample` and `sync_sample` are the two `choose_multiple` outcomes of
the Remotes handler runs triggered by steps 2 and 3. -/
def propose (st : SysState N E I) (hash : String) (m : GraphMutation N E I)
    (ff_sample sync_sample : List String)
    (ack_ff ack_sync : String → Except StoreError Unit)
    (store_io : Option StoreError) (save_ok : Bool) : ProposeOutcome N E I :=
  let _ff := sendLoop ack_ff ff_sample
  match sendLoop ack_sync sync_sample with
  | .error e =>
    { result := .error e
      log := st.log
      graph := st.graph
      trace := [.evPendingInsert hash, .evRemotesFireForget, .evRemotesSyncSend]
      ff_contacted := ff_sample
      sync_contacted := sync_sample }
  | .ok _ =>
    match store_io with
    | some e =>
      { result := .error e
        log := st.log
        graph := st.graph
        trace := [.evPendingInsert hash, .evRemotesFireForget,
          .evRemotesSyncSend, .evLogCommit hash]
        ff_contacted := ff_sample
        sync_contacted := sync_sample }
    | none =>
      match applyMutation st.graph m save_ok with
      | (res, g2) =>
        { result := res
          log := (log_commit st.log hash m).2
          graph := g2
          trace := [.evPendingInsert hash, .evRemotesFireForget,
            .evRemotesSyncSend, .evLogCommit hash, .evGraphApply]
          ff_contacted := ff_sample
          sync_contacted := sync_sample }

/-!
`Graph::filter_graph` (src/graph.rs lines 245-289), the branch where both
include lists are provided. The Rust closures capture `nodes.into_iter()`
and `edges.into_iter()` as mutable iterators shared across all calls, and
use `Iterator::find`, which consumes the iterator up to and including the
first match (and exhausts it on a miss). petgraph `filter_map` visits
nodes in node-index order, then edges in edge-index order, calling the
edge closure only for edges both of whose endpoints were kept. petgraph
renumbers the surviving entries; the model keeps the old indices, which
identifies the same surviving set.
-/

/-- `Iterator::find(|y| y == x)` on a consuming iterator holding `l`:
returns whether a match was found and the iterator's remaining elements
(everything up to and including the match is consumed; a miss exhausts
the iterator). -/
def findConsume {α : Type} [DecidableEq α] (l : List α) (x : α) :
    Bool × List α :=
  match l with
  | [] => (false, [])
  | y :: rest => if y == x then (true, rest) else findConsume rest x

/-- Node pass of `filter_map`: visit the node slots in index order; keep a
slot iff `find` succeeds on the shared include-list iterator. -/
def seqKeepNodes : List (Nat × N) → List N → List (Nat × N)
  | [], _ => []
  | n :: rest, incl =>
    match findConsume incl n.2 with
    | (true, incl2) => n :: seqKeepNodes rest incl2
    | (false, incl2) => seqKeepNodes rest incl2

/-- Edge pass of `filter_map`: visit edges in index order; the edge
closure (and hence the shared iterator) is only consulted for edges whose
two endpoints survived the node pass. -/
def seqKeepEdges (keptIdx : List Nat) :
    List (Nat × Nat × E) → List E → List (Nat × Nat × E)
  | [], _ => []
  | e :: rest, incl =>
    if keptIdx.contains e.1 && keptIdx.contains e.2.1 then
      match findConsume incl e.2.2 with
      | (true, incl2) => e :: seqKeepEdges keptIdx rest incl2
      | (false, incl2) => seqKeepEdges keptIdx rest incl2
    else seqKeepEdges keptIdx rest incl

/-- src/graph.rs `Graph::filter_graph` with `(Some(nodes), Some(edges))`:
the surviving node slots and edges. -/
def filter_graph_both (g : Graph N E I) (include_nodes : List N)
    (include_edges : List E) : List (Nat × N) × List (Nat × Nat × E) :=
  let kept := seqKeepNodes g.inner_nodes include_nodes
  (kept, seqKeepEdges (kept.map Prod.fst) g.inner_edges include_edges)

/-!
Concrete payload instantiation, as declared by the repository's own
executable (src/main.rs): `NodeTypes { id: usize, name: String }`,
`EdgeType(usize)`, `NodeKey(usize)`, with `From<NodeTypes> for NodeKey`
projecting `id`. usize is 64-bit here. Strings in this development are
assumed ASCII (true of every literal the proofs use), so UTF-8 bytes are
the character codes.
-/

/-- src/main.rs `NodeTypes { id: usize, name: String }`. -/
structure NodeTypes where
  id : Nat
  name : String
  deriving DecidableEq, Repr

/-- src/main.rs `EdgeType(usize)`. -/
structure EdgeType where
  val : Nat
  deriving DecidableEq, Repr

/-- src/main.rs `NodeKey(usize)`. -/
structure NodeKey where
  val : Nat
  deriving DecidableEq, Repr

/-- ASCII bytes of a string (UTF-8 bytes for the ASCII strings used
here). -/
def strBytes (s : String) : List Nat := s.data.map Char.toNat

/-- Rust `Debug` output of a `NodeKey` value. -/
def nodeKeyDebug (k : NodeKey) : String := "NodeKey(" ++ toString k.val ++ ")"

/-- Rust `Debug` output of an `EdgeType` value. -/
def edgeTypeDebug (e : EdgeType) : String :=
  "EdgeType(" ++ toString e.val ++ ")"

/-- Rust `Debug` output of a `NodeTypes` value (names assumed to need no
escaping). -/
def nodeTypesDebug (n : NodeTypes) : String :=
  "NodeTypes \x7b id: " ++ toString n.id ++ ", name: \"" ++ n.name ++ "\" \x7d"

/-- Rust `Debug` output of `GraphMutation<NodeTypes, EdgeType, NodeKey>`
(src/lib.rs derives `Debug`; each variant holds one tuple field, hence
the doubled parentheses). This is the string `format!("{:?}", self)` of
`GraphMutation::get_hash` digests. -/
def mutationDebug : GraphMutation NodeTypes EdgeType NodeKey → String
  | .AddEdge f t e =>
    "AddEdge((" ++ nodeKeyDebug f ++ ", " ++ nodeKeyDebug t ++ ", " ++
      edgeTypeDebug e ++ "))"
  | .RemoveEdge f t =>
    "RemoveEdge((" ++ nodeKeyDebug f ++ ", " ++ nodeKeyDebug t ++ "))"
  | .AddNode k n =>
    "AddNode((" ++ nodeKeyDebug k ++ ", " ++ nodeTypesDebug n ++ "))"
  | .RemoveNode k => "RemoveNode(" ++ nodeKeyDebug k ++ ")"

/-- Little-endian byte encoding of `n % 256^width` on `width` bytes. -/
def leBytes (width n : Nat) : List Nat :=
  match width with
  | 0 => []
  | w + 1 => (n % 256) :: leBytes w (n / 256)

/-- bincode 1.x (as invoked by `bincode::serialize` in src/lib.rs
`TryInto<Vec<u8>>`): little-endian fixed-width integers, u64 string
lengths. Encoding of a `NodeKey` (newtype over usize → u64). -/
def nodeKeyBincode (k : NodeKey) : List Nat := leBytes 8 k.val

/-- bincode encoding of an `EdgeType`. -/
def edgeTypeBincode (e : EdgeType) : List Nat := leBytes 8 e.val

/-- bincode encoding of a `NodeTypes` struct: fields in order. -/
def nodeTypesBincode (n : NodeTypes) : List Nat :=
  leBytes 8 n.id ++ leBytes 8 (strBytes n.name).length ++ strBytes n.name

/-- bincode encoding of `GraphMutation` (src/lib.rs `TryInto<Vec<u8>>`,
lines 94-106): u32 little-endian variant tag, then the variant's single
tuple field, fields in order. These are the wire bytes of the
`GraphMutationRequest.graph_mutation` payload. -/
def mutationBincode : GraphMutation NodeTypes EdgeType NodeKey → List Nat
  | .AddEdge f t e =>
    leBytes 4 0 ++ nodeKeyBincode f ++ nodeKeyBincode t ++ edgeTypeBincode e
  | .RemoveEdge f t => leBytes 4 1 ++ nodeKeyBincode f ++ nodeKeyBincode t
  | .AddNode k n => leBytes 4 2 ++ nodeKeyBincode k ++ nodeTypesBincode n
  | .RemoveNode k => leBytes 4 3 ++ nodeKeyBincode k

/-!
MD5 (RFC 1321), as computed by the `md5` crate used in src/lib.rs
`GraphMutation::get_hash`. Words are `Nat` reduced mod 2^32.
-/

/-- Reduction to a 32-bit word. -/
def w32 (n : Nat) : Nat := n % 4294967296

/-- Bitwise complement of a 32-bit word. -/
def mnot (x : Nat) : Nat := Nat.xor x 0xffffffff

/-- Left rotation of a 32-bit word by `s` (0 < s < 32). -/
def rotl32 (x s : Nat) : Nat :=
  (x % 2 ^ (32 - s)) * 2 ^ s + x / 2 ^ (32 - s)

/-- RFC 1321 sine-derived constant table. -/
def md5K : List Nat :=
  [0xd76aa478, 0xe8c7b756, 0x242070db, 0xc1bdceee,
   0xf57c0faf, 0x4787c62a, 0xa8304613, 0xfd469501,
   0x698098d8, 0x8b44f7af, 0xffff5bb1, 0x895cd7be,
   0x6b901122, 0xfd987193, 0xa679438e, 0x49b40821,
   0xf61e2562, 0xc040b340, 0x265e5a51, 0xe9b6c7aa,
   0xd62f105d, 0x02441453, 0xd8a1e681, 0xe7d3fbc8,
   0x21e1cde6, 0xc33707d6, 0xf4d50d87, 0x455a14ed,
   0xa9e3e905, 0xfcefa3f8, 0x676f02d9, 0x8d2a4c8a,
   0xfffa3942, 0x8771f681, 0x6d9d6122, 0xfde5380c,
   0xa4beea44, 0x4bdecfa9, 0xf6bb4b60, 0xbebfbc70,
   0x289b7ec6, 0xeaa127fa, 0xd4ef3085, 0x04881d05,
   0xd9d4d039, 0xe6db99e5, 0x1fa27cf8, 0xc4ac5665,
   0xf4292244, 0x432aff97, 0xab9423a7, 0xfc93a039,
   0x655b59c3, 0x8f0ccc92, 0xffeff47d, 0x85845dd1,
   0x6fa87e4f, 0xfe2ce6e0, 0xa3014314, 0x4e0811a1,
   0xf7537e82, 0xbd3af235, 0x2ad7d2bb, 0xeb86d391]

/-- RFC 1321 per-round shift amounts. -/
def md5S : List Nat :=
  [7, 12, 17, 22, 7, 12, 17, 22, 7, 12, 17, 22, 7, 12, 17, 22,
   5, 9, 14, 20, 5, 9, 14, 20, 5, 9, 14, 20, 5, 9, 14, 20,
   4, 11, 16, 23, 4, 11, 16, 23, 4, 11, 16, 23, 4, 11, 16, 23,
   6, 10, 15, 21, 6, 10, 15, 21, 6, 10, 15, 21, 6, 10, 15, 21]

/-- One of the 64 MD5 operations on state (a, b, c, d) with message
words `M`. -/
def md5step (M : List Nat) (st : Nat × Nat × Nat × Nat) (i : Nat) :
    Nat × Nat × Nat × Nat :=
  let a := st.1
  let b := st.2.1
  let c := st.2.2.1
  let d := st.2.2.2
  let fg : Nat × Nat :=
    if i < 16 then (Nat.lor (Nat.land b c) (Nat.land (mnot b) d), i)
    else if i < 32 then
      (Nat.lor (Nat.land d b) (Nat.land (mnot d) c), (5 * i + 1) % 16)
    else if i < 48 then
      (Nat.xor (Nat.xor b c) d, (3 * i + 5) % 16)
    else (Nat.xor c (Nat.lor b (mnot d)), (7 * i) % 16)
  let f2 := w32 (fg.1 + a + md5K.getD i 0 + M.getD fg.2 0)
  (d, w32 (b + rotl32 f2 (md5S.getD i 0)), b, c)

/-- Process one 16-word block. -/
def md5block (st : Nat × Nat × Nat × Nat) (M : List Nat) :
    Nat × Nat × Nat × Nat :=
  let r := (List.range 64).foldl (md5step M) st
  (w32 (st.1 + r.1), w32 (st.2.1 + r.2.1), w32 (st.2.2.1 + r.2.2.1),
   w32 (st.2.2.2 + r.2.2.2))

/-- Group bytes into little-endian 32-bit words. -/
def bytesToW32 : List Nat → List Nat
  | b0 :: b1 :: b2 :: b3 :: rest =>
    (b0 + 256 * b1 + 65536 * b2 + 16777216 * b3) :: bytesToW32 rest
  | _ => []

/-- Split a byte list into 64-byte chunks (structural recursion on a
fuel bounded by the list length, so the kernel can evaluate it). -/
def chunk64go : Nat → List Nat → List (List Nat)
  | _, [] => []
  | 0, _ => []
  | fuel + 1, x :: rest => ((x :: rest).take 64) :: chunk64go fuel (rest.drop 63)

/-- Split a byte list into 64-byte chunks. -/
def chunk64 (l : List Nat) : List (List Nat) := chunk64go l.length l

/-- MD5 padding: 0x80, zeros to 56 mod 64, then the bit length on 8
little-endian bytes. -/
def md5pad (msg : List Nat) : List Nat :=
  msg ++ [128] ++ List.replicate ((119 - msg.length % 64) % 64) 0 ++
    leBytes 8 (msg.length * 8)

/-- The 16 digest bytes of a byte message. -/
def md5digestBytes (msg : List Nat) : List Nat :=
  let r := (chunk64 (md5pad msg)).foldl
    (fun st blk => md5block st (bytesToW32 blk))
    (0x67452301, 0xefcdab89, 0x98badcfe, 0x10325476)
  leBytes 4 r.1 ++ leBytes 4 r.2.1 ++ leBytes 4 r.2.2.1 ++ leBytes 4 r.2.2.2

/-- Lowercase hex digit. -/
def hexDigit (n : Nat) : Char :=
  if n < 10 then Char.ofNat (48 + n) else Char.ofNat (87 + n)

/-- Two lowercase hex characters of a byte. -/
def byteHex (b : Nat) : String :=
  String.mk [hexDigit (b / 16), hexDigit (b % 16)]

/-- Lowercase hex string of a byte list. -/
def bytesHex (l : List Nat) : String :=
  l.foldl (fun acc b => acc ++ byteHex b) ""

/-- `format!("{:x}", md5::compute(bytes))`: the 32-character lowercase
hex MD5 digest. -/
def md5hex (msg : List Nat) : String := bytesHex (md5digestBytes msg)

/-- src/lib.rs `GraphMutation::get_hash` (lines 75-78):
`format!("{node_id}{:x}", md5::compute(format!("{:?}", self)))` — the
node id followed by the hex MD5 digest of the UTF-8 bytes of the
mutation's `Debug` formatting. -/
def get_hash (node_id : String)
    (m : GraphMutation NodeTypes EdgeType NodeKey) : String :=
  node_id ++ md5hex (strBytes (mutationDebug m))

/-!
Structural invariants (spec §3 Graph invariants) and auxiliary predicates
used by the claims.
-/

/-- Spec §3 graph invariants — at most one node per key, at most one edge
per ordered index pair, every edge referencing existing node slots —
together with the bookkeeping facts (distinct slots, map consistency,
index freshness) that make them inductive. -/
def GraphInv (g : Graph N E I) : Prop :=
  (g.inner_nodes.map Prod.fst).Nodup ∧
  (g.inner_edges.map (fun e => (e.1, e.2.1))).Nodup ∧
  (∀ e ∈ g.inner_edges,
    e.1 ∈ g.inner_nodes.map Prod.fst ∧ e.2.1 ∈ g.inner_nodes.map Prod.fst) ∧
  (g.nodes_map.map Prod.fst).Nodup ∧
  (g.nodes_map.map Prod.snd).Nodup ∧
  (∀ p ∈ g.nodes_map, p.2 ∈ g.inner_nodes.map Prod.fst) ∧
  (∀ p ∈ g.inner_nodes, p.1 < g.next_idx)

instance (g : Graph N E I) : Decidable (GraphInv g) := by
  unfold GraphInv; infer_instance

/-- Recogniser for LogStore append events in a Propose trace. -/
def isLogAddEv : PEv → Bool
  | .evLogAdd _ => true
  | _ => false

/-!
Concrete states used by counterexamples and witnesses (payloads
instantiated at `Nat`, standing for the repository's own instantiations
such as src/main.rs `usize`-keyed payloads).
-/

/-- Empty system state over Nat payloads. -/
def stEmptyN : SysState Nat Nat Nat := ⟨[], Graph.empty Nat Nat Nat⟩

/-- A peer table with three peers whose last gossip exchange succeeded. -/
def rs3 : List RemotesEntry := [⟨"p1", true⟩, ⟨"p2", true⟩, ⟨"p3", true⟩]

/-- A graph with two parallel edges between the same pair of slots (it
violates the one-edge-per-ordered-pair invariant). -/
def gDup : Graph Nat Nat Nat :=
  { inner_nodes := [(0, 10), (1, 11)]
    inner_edges := [(0, 1, 5), (0, 1, 6)]
    nodes_map := [(100, 0), (101, 1)]
    next_idx := 2 }

/-- System state holding `gDup` and an empty log. -/
def stDup : SysState Nat Nat Nat := ⟨[], gDup⟩

/-- A two-node graph (indices 0 and 1, payloads 10 and 11, keys 100 and
101) with no edges. -/
def gTwo : Graph Nat Nat Nat :=
  { inner_nodes := [(0, 10), (1, 11)]
    inner_edges := []
    nodes_map := [(100, 0), (101, 1)]
    next_idx := 2 }

/-- A one-node graph (index 0, payload 5, key 100). -/
def gOne : Graph Nat Nat Nat :=
  { inner_nodes := [(0, 5)]
    inner_edges := []
    nodes_map := [(100, 0)]
    next_idx := 1 }

/-- Acknowledgement function of a peer set that always accepts. -/
def ackOk : String → Except StoreError Unit := fun _ => .ok ()

/-- Acknowledgement function of a peer set that always fails. -/
def ackFail : String → Except StoreError Unit := fun _ => .error .ClientError

/-!
Helper lemmas.
-/

theorem mapLookup_insert (m : List (I × Nat)) (k : I) (v : Nat) :
    mapLookup (mapInsert m k v) k = some v := by
  simp [mapLookup, mapInsert, List.find?]

theorem mapLookup_remove_self (m : List (I × Nat)) (k : I) :
    mapLookup (mapRemove m k) k = none := by
  rw [mapLookup, Option.map_eq_none', List.find?_eq_none]
  intro p hp
  rw [mapRemove, List.mem_filter] at hp
  simpa using hp.2

theorem length_leBytes (w n : Nat) : (leBytes w n).length = w := by
  induction w generalizing n with
  | zero => rfl
  | succ w ih => simp [leBytes, ih]

theorem length_md5digestBytes (msg : List Nat) :
    (md5digestBytes msg).length = 16 := by
  simp [md5digestBytes, length_leBytes]

theorem byteHex_length (b : Nat) : (byteHex b).length = 2 := rfl

theorem bytesHex_go_length (l : List Nat) (acc : String) :
    (l.foldl (fun acc b => acc ++ byteHex b) acc).length =
      acc.length + 2 * l.length := by
  induction l generalizing acc with
  | nil => simp
  | cons b rest ih =>
    rw [List.foldl_cons, ih, String.length_append, byteHex_length]
    simp [List.length_cons]
    ring

theorem length_md5hex (msg : List Nat) : (md5hex msg).length = 32 := by
  rw [md5hex, bytesHex, bytesHex_go_length, length_md5digestBytes]
  rfl

/-- `sendLoop` returns Ok exactly when every peer in the list
acknowledged Ok. -/
theorem sendLoop_ok_iff (ack : String → Except StoreError Unit)
    (l : List String) :
    sendLoop ack l = .ok () ↔ ∀ p ∈ l, ack p = .ok () := by
  induction l with
  | nil => simp [sendLoop]
  | cons p ps ih =>
    cases hap : ack p with
    | error e => simp [sendLoop, hap]
    | ok u => cases u; simp [sendLoop, hap, ih]

theorem add_edge_error_state (g : Graph N E I) (f t : I) (ed : E) (sv : Bool)
    (e : StoreError) :
    (add_edge g f t ed sv).1 = .error e → (add_edge g f t ed sv).2 = g := by
  unfold add_edge
  repeat' split
  all_goals intro h
  all_goals first | rfl | simp at h

theorem remove_edge_error_state (g : Graph N E I) (f t : I) (sv : Bool)
    (e : StoreError) :
    (remove_edge g f t sv).1 = .error e → (remove_edge g f t sv).2 = g := by
  unfold remove_edge
  repeat' split
  all_goals intro h
  all_goals first | rfl | simp at h

theorem add_node_error_state (g : Graph N E I) (k : I) (n : N) (sv : Bool)
    (e : StoreError) :
    (add_node g k n sv).1 = .error e → (add_node g k n sv).2 = g := by
  unfold add_node
  repeat' split
  all_goals intro h
  all_goals first | rfl | simp at h

theorem remove_node_error_state (g : Graph N E I) (k : I) (sv : Bool)
    (e : StoreError) :
    (remove_node g k sv).1 = .error e → (remove_node g k sv).2 = g := by
  unfold remove_node
  repeat' split
  all_goals intro h
  all_goals first | rfl | simp at h

/-- C10: every Graph mutation is atomic with respect to failure — if
`add_edge`, `remove_edge`, `add_node` or `remove_node` returns an error
(precondition violation or snapshot-save failure), the whole actor state
(inner graph and key-to-index map) is exactly the state before the call,
because the mutation is performed on a clone installed only after the
snapshot save succeeds. -/
theorem C10_mutations_atomic_on_error (g : Graph N E I) (f t k : I) (ed : E)
    (n : N) (sv : Bool) (e : StoreError) :
    ((add_edge g f t ed sv).1 = .error e → (add_edge g f t ed sv).2 = g) ∧
    ((remove_edge g f t sv).1 = .error e → (remove_edge g f t sv).2 = g) ∧
    ((add_node g k n sv).1 = .error e → (add_node g k n sv).2 = g) ∧
    ((remove_node g k sv).1 = .error e → (remove_node g k sv).2 = g) :=
  ⟨add_edge_error_state g f t ed sv e, remove_edge_error_state g f t sv e,
   add_node_error_state g k n sv e, remove_node_error_state g k sv e⟩

/-- Witness for C10 at concrete inputs: a duplicate `add_node` on the
one-node graph errors and leaves the state unchanged, as does a
snapshot-save failure on a fresh key. -/
theorem C10_mutations_atomic_on_error_witness :
    (add_node gOne 100 7 true).2 = gOne ∧
    (add_node gOne 200 7 false).2 = gOne :=
  ⟨(C10_mutations_atomic_on_error gOne 100 100 100 7 7 true
      .ConflictDuplicateNode).2.2.1 (by decide),
   (C10_mutations_atomic_on_error gOne 100 100 200 7 7 false
      .FileSaveError).2.2.1 (by decide)⟩

theorem logLookup_cons_eq (r : String × GraphMutation N E I × Bool)
    (rest : LogTable N E I) (hash : String) (h : r.1 = hash) :
    logLookup (r :: rest) hash = some r.2 := by
  have hb : (r.1 == hash) = true := by simpa using h
  simp [logLookup, List.find?, hb]

theorem logLookup_cons_ne (r : String × GraphMutation N E I × Bool)
    (rest : LogTable N E I) (hash : String) (h : ¬(r.1 = hash)) :
    logLookup (r :: rest) hash = logLookup rest hash := by
  have hb : (r.1 == hash) = false := by simpa using h
  simp [logLookup, List.find?, hb]

theorem logLookup_commit_update (t : LogTable N E I) (hash : String)
    (m0 : GraphMutation N E I) (c0 : Bool)
    (h : logLookup t hash = some (m0, c0)) :
    logLookup
      (t.map (fun r => if r.1 == hash then (r.1, r.2.1, true) else r)) hash =
      some (m0, true) := by
  induction t with
  | nil => simp [logLookup] at h
  | cons r rest ih =>
    by_cases hr : r.1 = hash
    · rw [logLookup_cons_eq r rest hash hr] at h
      have h2 : r.2 = (m0, c0) := by injection h
      rw [List.map_cons]
      have hfr : (if r.1 == hash then (r.1, r.2.1, true) else r) =
          (r.1, r.2.1, true) := by simp [hr]
      rw [hfr, logLookup_cons_eq (r.1, r.2.1, true) _ hash hr]
      rw [h2]
    · rw [logLookup_cons_ne r rest hash hr] at h
      have := ih h
      rw [List.map_cons]
      have hfr : (if r.1 == hash then (r.1, r.2.1, true) else r) = r := by
        simp [hr]
      rw [hfr, logLookup_cons_ne r _ hash hr]
      exact this

/-- C7: `Add` on a hash already present fails with `WriteLogError`
leaving the table unchanged; `Commit` always succeeds — it inserts a
committed row when the hash is absent and flips the existing row's
committed flag (blob unchanged) when present. -/
theorem C7_log_add_fails_commit_upserts (t : LogTable N E I) (hash : String)
    (m : GraphMutation N E I) :
    ((logLookup t hash).isSome = true →
      log_add t hash m = (.error .WriteLogError, t)) ∧
    (logLookup t hash = none →
      log_add t hash m = (.ok 1, t ++ [(hash, m, false)])) ∧
    (logLookup t hash = none →
      log_commit t hash m = (.ok 1, t ++ [(hash, m, true)])) ∧
    (∀ m0 c0, logLookup t hash = some (m0, c0) →
      (log_commit t hash m).1 = .ok 1 ∧
      logLookup (log_commit t hash m).2 hash = some (m0, true)) := by
  refine ⟨?_, ?_, ?_, ?_⟩
  · intro h
    rw [log_add]
    cases hl : logLookup t hash with
    | none => rw [hl] at h; simp at h
    | some v => rfl
  · intro h; rw [log_add, h]
  · intro h; rw [log_commit, h]
  · intro m0 c0 h
    rw [log_commit, h]
    exact ⟨rfl, logLookup_commit_update t hash m0 c0 h⟩

/-- Witness for C7 at a concrete one-row table: Add on the present hash
fails and preserves the table; Commit flips the row to committed. -/
theorem C7_log_add_fails_commit_upserts_witness :
    log_add (N := Nat) (E := Nat) (I := Nat) [("h1", .AddNode 1 2, false)]
      "h1" (.AddNode 1 2) = (.error .WriteLogError,
        [("h1", .AddNode 1 2, false)]) ∧
    logLookup (log_commit (N := Nat) (E := Nat) (I := Nat)
      [("h1", .AddNode 1 2, false)] "h1" (.AddNode 1 2)).2 "h1" =
      some (.AddNode 1 2, true) :=
  ⟨(C7_log_add_fails_commit_upserts [("h1", .AddNode 1 2, false)] "h1"
      (.AddNode 1 2)).1 (by decide),
   ((C7_log_add_fails_commit_upserts [("h1", .AddNode 1 2, false)] "h1"
      (.AddNode 1 2)).2.2.2 (.AddNode 1 2) false (by decide)).2⟩

/-- C3: the synchronous replication handler samples
`min(sync_with_n, |reachable|)` distinct peers from the peers whose last
exchange succeeded (`ValidSample` is the `choose_multiple`
characterisation) and returns Ok iff every sampled peer acknowledged Ok;
with no reachable peers it samples no one and returns Ok. -/
theorem C3_replicate_to_n_policy (remotes : List RemotesEntry) (n : Nat)
    (sample : List String) (ack : String → Except StoreError Unit)
    (h : ValidSample (reachablePeers remotes) sample n) :
    (sendLoop ack sample = .ok () ↔ ∀ p ∈ sample, ack p = .ok ()) ∧
    (reachablePeers remotes = [] → sendLoop ack sample = .ok ()) := by
  refine ⟨sendLoop_ok_iff ack sample, ?_⟩
  intro hempty
  have hlen : sample.length = 0 := by
    have := h.2.2
    rw [hempty] at this
    simpa using this
  rw [List.length_eq_zero] at hlen
  rw [hlen]
  rfl

/-- Witness for C3: sampling one of the two reachable peers of a
three-peer table (one unreachable) and acknowledging Ok yields Ok, and
an empty table forces the empty sample to succeed. -/
theorem C3_replicate_to_n_policy_witness :
    sendLoop ackOk ["p1"] = .ok () ∧ sendLoop ackFail [] = .ok () :=
  ⟨(C3_replicate_to_n_policy [⟨"p1", true⟩, ⟨"p2", true⟩, ⟨"p3", false⟩] 1
      ["p1"] ackOk (by decide)).1.mpr (fun p _ => rfl),
   (C3_replicate_to_n_policy [] 2 [] ackFail (by decide)).2 rfl⟩

theorem logLookup_append_none (t l2 : LogTable N E I) (hash : String)
    (h : logLookup t hash = none) :
    logLookup (t ++ l2) hash = logLookup l2 hash := by
  induction t with
  | nil => simp
  | cons r rest ih =>
    by_cases hr : r.1 = hash
    · rw [logLookup_cons_eq r rest hash hr] at h; simp at h
    · rw [logLookup_cons_ne r rest hash hr] at h
      rw [List.cons_append, logLookup_cons_ne r _ hash hr]
      exact ih h

theorem logLookup_singleton (hash : String) (m : GraphMutation N E I)
    (c : Bool) : logLookup [(hash, m, c)] hash = some (m, c) := by
  simp [logLookup, List.find?]

/-- After a `Commit` upsert the row for the hash exists and is
committed. -/
theorem logLookup_log_commit (t : LogTable N E I) (hash : String)
    (m : GraphMutation N E I) :
    ∃ m2, logLookup (log_commit t hash m).2 hash = some (m2, true) := by
  cases hl : logLookup t hash with
  | none =>
    refine ⟨m, ?_⟩
    rw [log_commit, hl]
    rw [logLookup_append_none t _ hash hl]
    exact logLookup_singleton hash m true
  | some v =>
    exact ⟨v.1, by
      rw [log_commit, hl]
      exact logLookup_commit_update t hash v.1 v.2 (by rw [hl])⟩

/-- C2 counterexample: a successful local Propose whose trace contains no
LogStore append event at all — the claim's uncommitted append before the
peer sends never happens. -/
theorem C2_counterexample :
    ((propose stEmptyN "h1" (.AddNode 1 2) [] [] ackOk ackOk none
        true).trace.filter isLogAddEv) = [] ∧
    (propose stEmptyN "h1" (.AddNode 1 2) [] [] ackOk ackOk none
        true).result = .ok (.Node 2) := by decide

/-- C2 (amended): a local Propose performs no LogStore append at all; its
trace starts with the pending insert and the two peer sends, any LogStore
activity (the commit upsert) strictly follows the awaited replication,
and a replication failure is returned to the caller with the LogStore
untouched. -/
theorem C2_no_append_log_touched_after_peers (st : SysState N E I)
    (hash : String) (m : GraphMutation N E I) (ffS syncS : List String)
    (ackF ackS : String → Except StoreError Unit)
    (io : Option StoreError) (sv : Bool) :
    ((propose st hash m ffS syncS ackF ackS io sv).trace.filter isLogAddEv
      = []) ∧
    (∃ tail, (propose st hash m ffS syncS ackF ackS io sv).trace =
      [.evPendingInsert hash, .evRemotesFireForget, .evRemotesSyncSend]
        ++ tail) ∧
    (∀ e, sendLoop ackS syncS = .error e →
      (propose st hash m ffS syncS ackF ackS io sv).result = .error e ∧
      (propose st hash m ffS syncS ackF ackS io sv).log = st.log ∧
      (propose st hash m ffS syncS ackF ackS io sv).trace =
        [.evPendingInsert hash, .evRemotesFireForget, .evRemotesSyncSend]) := by
  cases hs : sendLoop ackS syncS with
  | error e =>
    refine ⟨?_, ⟨[], ?_⟩, ?_⟩
    · simp [propose, hs, isLogAddEv, List.filter]
    · simp [propose, hs]
    · intro e2 he2
      injection he2 with he2
      subst he2
      exact ⟨by simp [propose, hs], by simp [propose, hs], by simp [propose, hs]⟩
  | ok u =>
    cases u
    cases io with
    | some e2 =>
      refine ⟨?_, ⟨[.evLogCommit hash], ?_⟩, ?_⟩
      · simp [propose, hs, isLogAddEv, List.filter]
      · simp [propose, hs]
      · intro e3 he3; simp at he3
    | none =>
      cases hap : applyMutation st.graph m sv with
      | mk res g2 =>
        refine ⟨?_, ⟨[.evLogCommit hash, .evGraphApply], ?_⟩, ?_⟩
        · simp [propose, hs, hap, isLogAddEv, List.filter]
        · simp [propose, hs, hap]
        · intro e3 he3; simp at he3

/-- Witness for C2 (amended) at a concrete failing replication: the error
is surfaced and the LogStore is untouched. -/
theorem C2_no_append_log_touched_after_peers_witness :
    (propose stEmptyN "h1" (GraphMutation.AddNode 1 2) [] ["p1"] ackOk
      ackFail none true).result = .error .ClientError ∧
    (propose stEmptyN "h1" (GraphMutation.AddNode 1 2) [] ["p1"] ackOk
      ackFail none true).log = stEmptyN.log :=
  ⟨((C2_no_append_log_touched_after_peers stEmptyN "h1" (.AddNode 1 2) []
      ["p1"] ackOk ackFail none true).2.2 .ClientError (by decide)).1,
   ((C2_no_append_log_touched_after_peers stEmptyN "h1" (.AddNode 1 2) []
      ["p1"] ackOk ackFail none true).2.2 .ClientError (by decide)).2.1⟩

/-- C4: a locally proposed mutation returning Ok has, at the moment of
return, a committed=true row under its hash in the LogStore; the commit
upsert was awaited and succeeded (`store_io = none`) and the Graph apply
(whose result is returned) strictly follows it in the trace. -/
theorem C4_ok_return_implies_committed (st : SysState N E I) (hash : String)
    (m : GraphMutation N E I) (ffS syncS : List String)
    (ackF ackS : String → Except StoreError Unit)
    (io : Option StoreError) (sv : Bool) (r : GraphResponse N E)
    (h : (propose st hash m ffS syncS ackF ackS io sv).result = .ok r) :
    (∃ m2, logLookup (propose st hash m ffS syncS ackF ackS io sv).log hash =
      some (m2, true)) ∧
    io = none ∧
    (propose st hash m ffS syncS ackF ackS io sv).trace =
      [.evPendingInsert hash, .evRemotesFireForget, .evRemotesSyncSend,
       .evLogCommit hash, .evGraphApply] := by
  cases hs : sendLoop ackS syncS with
  | error e => exact absurd h (by simp [propose, hs])
  | ok u =>
    cases u
    cases io with
    | some e2 => exact absurd h (by simp [propose, hs])
    | none =>
      cases hap : applyMutation st.graph m sv with
      | mk res g2 =>
        refine ⟨?_, rfl, ?_⟩
        · have hlog : (propose st hash m ffS syncS ackF ackS none sv).log =
              (log_commit st.log hash m).2 := by simp [propose, hs, hap]
          rw [hlog]
          exact logLookup_log_commit st.log hash m
        · simp [propose, hs, hap]

/-- Witness for C4: a concrete successful Propose leaves a committed row
for its hash. -/
theorem C4_ok_return_implies_committed_witness :
    ∃ m2, logLookup (propose stEmptyN "h1" (GraphMutation.AddNode 1 2) []
      [] ackOk ackOk none true).log "h1" = some (m2, true) :=
  (C4_ok_return_implies_committed stEmptyN "h1" (.AddNode 1 2) [] [] ackOk
    ackOk none true (.Node 2) (by decide)).1

/-- C6 counterexample: with three reachable peers and `sync_with_n = 2`,
a legitimate `choose_multiple` outcome of the fire-and-forget dispatch
contacts only two of them — peer p3 is a known reachable peer that the
fire-and-forget path does not contact, contradicting the claimed
broadcast to every reachable peer. -/
theorem C6_counterexample :
    ValidSample (reachablePeers rs3) ["p1", "p2"] 2 ∧
    "p3" ∈ reachablePeers rs3 ∧
    "p3" ∉ (propose stEmptyN "h1" (GraphMutation.AddNode 1 2) ["p1", "p2"]
      ["p1", "p2"] ackOk ackOk none true).ff_contacted := by decide

/-- C6 (amended): the fire-and-forget `do_send` dispatches the entry to
the same sampled replicate-to-N handler — a `choose_multiple` sample of
`min(sync_with_n, |reachable|)` distinct reachable peers, not all of
them; it is not awaited and its acknowledgements never influence the
Propose outcome. -/
theorem C6_fire_forget_sampled_not_awaited (st : SysState N E I)
    (hash : String) (m : GraphMutation N E I) (ffS syncS : List String)
    (ackA ackB ackS : String → Except StoreError Unit)
    (io : Option StoreError) (sv : Bool) :
    propose st hash m ffS syncS ackA ackS io sv =
      propose st hash m ffS syncS ackB ackS io sv ∧
    (propose st hash m ffS syncS ackA ackS io sv).ff_contacted = ffS ∧
    (∀ remotes n, ValidSample (reachablePeers remotes) ffS n →
      ffS.length = min n (reachablePeers remotes).length ∧ ffS.Nodup ∧
      ffS ⊆ reachablePeers remotes) := by
  refine ⟨rfl, ?_, ?_⟩
  · cases hs : sendLoop ackS syncS with
    | error e => simp [propose, hs]
    | ok u =>
      cases u
      cases io with
      | some e2 => simp [propose, hs]
      | none =>
        cases hap : applyMutation st.graph m sv with
        | mk res g2 => simp [propose, hs, hap]
  · intro remotes n h
    exact ⟨h.2.2, h.1, h.2.1⟩

/-- Witness for C6 (amended): a singleton sample out of the three-peer
table is a valid `choose_multiple` outcome for `sync_with_n = 1` and is
what the fire-and-forget path contacts. -/
theorem C6_fire_forget_sampled_not_awaited_witness :
    (propose stEmptyN "h1" (GraphMutation.AddNode 1 2) ["p1"] [] ackOk
      ackOk none true).ff_contacted = ["p1"] ∧
    (["p1"] : List String).length = min 1 (reachablePeers rs3).length :=
  ⟨(C6_fire_forget_sampled_not_awaited stEmptyN "h1" (.AddNode 1 2) ["p1"]
      [] ackOk ackOk ackOk none true).2.1,
   ((C6_fire_forget_sampled_not_awaited stEmptyN "h1" (.AddNode 1 2)
      ["p1"] [] ackOk ackOk ackOk none true).2.2 rs3 1 (by decide)).1⟩

set_option maxRecDepth 10000 in
/-- C1 counterexample: for node id "nodeid12" and the concrete mutation
`RemoveNode(NodeKey(5))`, the hash the code records differs from the node
id followed by the hex MD5 digest of the mutation's bincode wire bytes —
the code digests `format!("{:?}", self)`, not the binary encoding. -/
theorem C1_counterexample :
    get_hash "nodeid12" (.RemoveNode ⟨5⟩) ≠
      "nodeid12" ++ md5hex (mutationBincode (.RemoveNode ⟨5⟩)) := by decide

/-- C1 (amended): the recorded hash equals the node id concatenated with
the fixed-width (32 lowercase hex characters) MD5 digest of the UTF-8
bytes of the mutation's `Debug` formatting — a deterministic
representation of the mutation, but not the bincode bytes sent on the
wire. -/
theorem C1_hash_from_debug_formatting (node_id : String)
    (m : GraphMutation NodeTypes EdgeType NodeKey) :
    get_hash node_id m = node_id ++ md5hex (strBytes (mutationDebug m)) ∧
    (get_hash node_id m).length = node_id.length + 32 := by
  refine ⟨rfl, ?_⟩
  rw [get_hash, String.length_append, length_md5hex]

theorem findConsume_subset {α : Type} [DecidableEq α] (l : List α) (x : α) :
    (findConsume l x).2 ⊆ l := by
  induction l with
  | nil => simp [findConsume]
  | cons y rest ih =>
    by_cases hy : y = x
    · have hb : (y == x) = true := by simpa using hy
      simp only [findConsume, hb, if_true]
      exact List.subset_cons_self y rest
    · have hb : (y == x) = false := by simpa using hy
      simp only [findConsume, hb, if_false]
      exact ih.trans (List.subset_cons_self y rest)

theorem findConsume_true_mem {α : Type} [DecidableEq α] (l : List α) (x : α)
    (h : (findConsume l x).1 = true) : x ∈ l := by
  induction l with
  | nil => simp [findConsume] at h
  | cons y rest ih =>
    by_cases hy : y = x
    · exact hy ▸ List.mem_cons_self y rest
    · have hb : (y == x) = false := by simpa using hy
      simp only [findConsume, hb, if_false] at h
      exact List.mem_cons_of_mem y (ih h)

theorem seqKeepNodes_sound (ns : List (Nat × N)) (incl : List N) :
    ∀ p ∈ seqKeepNodes ns incl, p ∈ ns ∧ p.2 ∈ incl := by
  induction ns generalizing incl with
  | nil => simp [seqKeepNodes]
  | cons n rest ih =>
    intro p hp
    rw [seqKeepNodes] at hp
    cases hfc : findConsume incl n.2 with
    | mk found incl2 =>
      rw [hfc] at hp
      cases found with
      | true =>
        rcases List.mem_cons.mp hp with hpn | hptail
        · subst hpn
          exact ⟨List.mem_cons_self p rest,
            findConsume_true_mem incl p.2 (by rw [hfc])⟩
        · have := ih incl2 p hptail
          exact ⟨List.mem_cons_of_mem n this.1,
            findConsume_subset incl n.2 (by rw [hfc]; exact this.2)⟩
      | false =>
        have := ih incl2 p hp
        exact ⟨List.mem_cons_of_mem n this.1,
          findConsume_subset incl n.2 (by rw [hfc]; exact this.2)⟩

theorem seqKeepEdges_sound (keptIdx : List Nat) (es : List (Nat × Nat × E))
    (incl : List E) :
    ∀ e ∈ seqKeepEdges keptIdx es incl,
      e ∈ es ∧ e.2.2 ∈ incl ∧ e.1 ∈ keptIdx ∧ e.2.1 ∈ keptIdx := by
  induction es generalizing incl with
  | nil => simp [seqKeepEdges]
  | cons e0 rest ih =>
    intro e he
    rw [seqKeepEdges] at he
    by_cases hk : (keptIdx.contains e0.1 && keptIdx.contains e0.2.1) = true
    · rw [if_pos hk] at he
      cases hfc : findConsume incl e0.2.2 with
      | mk found incl2 =>
        rw [hfc] at he
        cases found with
        | true =>
          rcases List.mem_cons.mp he with hee | hetail
          · subst hee
            have hk1 := (Bool.and_eq_true _ _).mp hk
            exact ⟨List.mem_cons_self e rest,
              findConsume_true_mem incl e.2.2 (by rw [hfc]),
              List.elem_iff.mp hk1.1, List.elem_iff.mp hk1.2⟩
          · have := ih incl2 e hetail
            exact ⟨List.mem_cons_of_mem e0 this.1,
              findConsume_subset incl e0.2.2 (by rw [hfc]; exact this.2.1),
              this.2.2.1, this.2.2.2⟩
        | false =>
          have := ih incl2 e he
          exact ⟨List.mem_cons_of_mem e0 this.1,
            findConsume_subset incl e0.2.2 (by rw [hfc]; exact this.2.1),
            this.2.2.1, this.2.2.2⟩
    · rw [if_neg hk] at he
      have := ih incl e he
      exact ⟨List.mem_cons_of_mem e0 this.1, this.2.1, this.2.2.1,
        this.2.2.2⟩

/-- C9 counterexample: in the two-node graph with payloads 10 and 11 and
both payloads present in `include_nodes = [11, 10]`, `filter_graph`
keeps only the node with payload 10: searching for the first node's
payload consumed the list past 11, so the second node is dropped even
though its payload is a member — the result is not the membership filter
and depends on visit order. -/
theorem C9_counterexample :
    (filter_graph_both gTwo [11, 10] []).1 ≠
      gTwo.inner_nodes.filter (fun p => [11, 10].contains p.2) := by decide

/-- C9 (amended): with both include lists provided, `filter_graph` keeps
only nodes whose payload is a member of `include_nodes` and only edges
whose payload is a member of `include_edges` with both endpoints kept —
but not necessarily all of them: the shared consuming iterator makes
retention depend on the visit order (one-pass left-to-right matching). -/
theorem C9_filter_graph_keeps_only_members (g : Graph N E I) (inclN : List N)
    (inclE : List E) :
    (∀ p ∈ (filter_graph_both g inclN inclE).1,
      p ∈ g.inner_nodes ∧ p.2 ∈ inclN) ∧
    (∀ e ∈ (filter_graph_both g inclN inclE).2,
      e ∈ g.inner_edges ∧ e.2.2 ∈ inclE ∧
      e.1 ∈ ((filter_graph_both g inclN inclE).1.map Prod.fst) ∧
      e.2.1 ∈ ((filter_graph_both g inclN inclE).1.map Prod.fst)) := by
  constructor
  · intro p hp
    exact seqKeepNodes_sound g.inner_nodes inclN p hp
  · intro e he
    have := seqKeepEdges_sound
      ((seqKeepNodes g.inner_nodes inclN).map Prod.fst) g.inner_edges inclE
      e he
    exact ⟨this.1, this.2.1, this.2.2.1, this.2.2.2⟩

/-- Witness for C9 (amended): the kept node of the one-node graph under
`include_nodes = [5]` is a graph node whose payload is in the list. -/
theorem C9_filter_graph_keeps_only_members_witness :
    (0, 5) ∈ gOne.inner_nodes ∧ (5 : Nat) ∈ [5] :=
  (C9_filter_graph_keeps_only_members gOne [5] []).1 (0, 5) (by decide)

theorem logLookup_none_keys (t : LogTable N E I) (hash : String)
    (h : logLookup t hash = none) : ∀ r ∈ t, (r.1 == hash) = false := by
  rw [logLookup, Option.map_eq_none', List.find?_eq_none] at h
  intro r hr
  simpa using h r hr

theorem commit_map_idem (t : LogTable N E I) (hash : String) :
    (t.map (fun r => if r.1 == hash then (r.1, r.2.1, true) else r)).map
      (fun r => if r.1 == hash then (r.1, r.2.1, true) else r) =
    t.map (fun r => if r.1 == hash then (r.1, r.2.1, true) else r) := by
  induction t with
  | nil => rfl
  | cons r rest ih =>
    simp only [List.map_cons]
    rw [ih]
    by_cases hr : (r.1 == hash) = true
    · simp [hr]
    · simp [hr]

theorem commit_map_id_of_absent (t : LogTable N E I) (hash : String)
    (h : logLookup t hash = none) :
    t.map (fun r => if r.1 == hash then (r.1, r.2.1, true) else r) = t := by
  induction t with
  | nil => rfl
  | cons r rest ih =>
    have hk := logLookup_none_keys (r :: rest) hash h
    have hr := hk r (List.mem_cons_self r rest)
    have hrest : logLookup rest hash = none := by
      rw [← logLookup_cons_ne r rest hash (by simpa using hr)]
      exact h
    simp only [List.map_cons, hr, Bool.false_eq_true, if_false, ih hrest]

/-- The committed=true upsert is idempotent on the log table. -/
theorem log_commit_idem (t : LogTable N E I) (hash : String)
    (m : GraphMutation N E I) :
    (log_commit (log_commit t hash m).2 hash m).2 = (log_commit t hash m).2 := by
  cases hl : logLookup t hash with
  | some v =>
    have hstep : (log_commit t hash m).2 =
        t.map (fun r => if r.1 == hash then (r.1, r.2.1, true) else r) := by
      simp [log_commit, hl]
    rw [hstep]
    have h2 : logLookup
        (t.map (fun r => if r.1 == hash then (r.1, r.2.1, true) else r))
        hash = some (v.1, true) :=
      logLookup_commit_update t hash v.1 v.2 (by rw [hl])
    simp only [log_commit, h2]
    exact commit_map_idem t hash
  | none =>
    have hstep : (log_commit t hash m).2 = t ++ [(hash, m, true)] := by
      simp [log_commit, hl]
    rw [hstep]
    have h2 : logLookup (t ++ [(hash, m, true)]) hash = some (m, true) := by
      rw [logLookup_append_none t _ hash hl]
      exact logLookup_singleton hash m true
    simp only [log_commit, h2, List.map_append]
    rw [commit_map_id_of_absent t hash hl]
    simp [List.map_cons]

theorem findEdge_append_self (es : List (Nat × Nat × E)) (fi ti : Nat)
    (ed : E) (h : findEdge es fi ti = none) :
    findEdge (es ++ [(fi, ti, ed)]) fi ti = some (fi, ti, ed) := by
  induction es with
  | nil => simp [findEdge, List.find?]
  | cons e rest ih =>
    cases hp : (e.1 == fi && e.2.1 == ti) with
    | true =>
      exfalso
      rw [findEdge, List.find?, hp] at h
      simp at h
    | false =>
      rw [findEdge, List.find?, hp] at h
      rw [List.cons_append, findEdge, List.find?, hp]
      exact ih h

theorem findEdge_none_of_pair_not_mem (es : List (Nat × Nat × E))
    (fi ti : Nat) (h : (fi, ti) ∉ es.map (fun e => (e.1, e.2.1))) :
    findEdge es fi ti = none := by
  rw [findEdge, List.find?_eq_none]
  intro e he hc
  apply h
  rcases Bool.and_eq_true _ _ |>.mp hc with ⟨h1, h2⟩
  have h1 : e.1 = fi := by simpa using h1
  have h2 : e.2.1 = ti := by simpa using h2
  exact List.mem_map.mpr ⟨e, he, by rw [h1, h2]⟩

theorem findEdge_removeEdgeList_none (es : List (Nat × Nat × E))
    (fi ti : Nat) (hnd : (es.map (fun e => (e.1, e.2.1))).Nodup) :
    findEdge (removeEdgeList es fi ti) fi ti = none := by
  induction es with
  | nil => rfl
  | cons e rest ih =>
    rw [List.map_cons, List.nodup_cons] at hnd
    cases hp : (e.1 == fi && e.2.1 == ti) with
    | true =>
      rw [removeEdgeList, if_pos hp]
      rcases Bool.and_eq_true _ _ |>.mp hp with ⟨h1, h2⟩
      have h1 : e.1 = fi := by simpa using h1
      have h2 : e.2.1 = ti := by simpa using h2
      apply findEdge_none_of_pair_not_mem
      rw [← h1, ← h2]
      exact hnd.1
    | false =>
      rw [removeEdgeList, if_neg (by simp [hp])]
      rw [findEdge, List.find?, hp]
      exact ih hnd.2

theorem applyMutation_snd_addEdge (g : Graph N E I) (f t : I) (ed : E)
    (sv : Bool) :
    (applyMutation g (.AddEdge f t ed) sv).2 = (add_edge g f t ed sv).2 := by
  cases h : add_edge g f t ed sv with
  | mk r g2 => cases r <;> simp [applyMutation, h]

theorem applyMutation_snd_removeEdge (g : Graph N E I) (f t : I) (sv : Bool) :
    (applyMutation g (.RemoveEdge f t) sv).2 = (remove_edge g f t sv).2 := by
  cases h : remove_edge g f t sv with
  | mk r g2 => cases r <;> simp [applyMutation, h]

theorem applyMutation_snd_addNode (g : Graph N E I) (k : I) (n : N)
    (sv : Bool) :
    (applyMutation g (.AddNode k n) sv).2 = (add_node g k n sv).2 := by
  cases h : add_node g k n sv with
  | mk r g2 => cases r <;> simp [applyMutation, h]

theorem applyMutation_snd_removeNode (g : Graph N E I) (k : I) (sv : Bool) :
    (applyMutation g (.RemoveNode k) sv).2 = (remove_node g k sv).2 := by
  cases h : remove_node g k sv with
  | mk r g2 => cases r <;> simp [applyMutation, h]

theorem add_node_idem (g : Graph N E I) (k : I) (n : N) :
    (add_node (add_node g k n true).2 k n true).2 = (add_node g k n true).2 := by
  cases hl : mapLookup g.nodes_map k with
  | some v =>
    have hst : (add_node g k n true).2 = g := by simp [add_node, hl]
    rw [hst]
    simp [add_node, hl]
  | none =>
    have hst : (add_node g k n true).2 =
        { g with
          inner_nodes := g.inner_nodes ++ [(g.next_idx, n)]
          nodes_map := mapInsert g.nodes_map k g.next_idx
          next_idx := g.next_idx + 1 } := by
      simp [add_node, hl, save_to_file]
    rw [hst]
    simp [add_node, mapLookup_insert]

theorem remove_node_idem (g : Graph N E I) (k : I) :
    (remove_node (remove_node g k true).2 k true).2 =
      (remove_node g k true).2 := by
  cases hl : mapLookup g.nodes_map k with
  | none =>
    have hst : (remove_node g k true).2 = g := by simp [remove_node, hl]
    rw [hst]
    simp [remove_node, hl]
  | some idx =>
    cases hri : removeNodeInner g idx with
    | none =>
      have hst : (remove_node g k true).2 = g := by simp [remove_node, hl, hri]
      rw [hst]
      simp [remove_node, hl, hri]
    | some triple =>
      have hst : (remove_node g k true).2 =
          { g with
            inner_nodes := triple.2.1
            inner_edges := triple.2.2
            nodes_map := mapRemove g.nodes_map k } := by
        simp [remove_node, hl, hri, save_to_file]
      rw [hst]
      simp [remove_node, mapLookup_remove_self]

theorem add_edge_idem (g : Graph N E I) (f t : I) (ed : E) :
    (add_edge (add_edge g f t ed true).2 f t ed true).2 =
      (add_edge g f t ed true).2 := by
  cases hge : get_edge g f t with
  | ok v =>
    have hst : (add_edge g f t ed true).2 = g := by simp [add_edge, hge]
    rw [hst]
    simp [add_edge, hge]
  | error e0 =>
    cases hf : mapLookup g.nodes_map f with
    | none =>
      have hgni : get_node_index g f = .error .NodeNotFound := by
        simp [get_node_index, hf]
      have hst : (add_edge g f t ed true).2 = g := by
        simp [add_edge, hge, hgni]
      rw [hst]
      simp [add_edge, hge, hgni]
    | some fi =>
      cases ht : mapLookup g.nodes_map t with
      | none =>
        have hgni : get_node_index g t = .error .NodeNotFound := by
          simp [get_node_index, ht]
        have hst : (add_edge g f t ed true).2 = g := by
          simp [add_edge, hge, get_node_index, hf, ht]
        rw [hst]
        simp [add_edge, hge, get_node_index, hf, ht]
      | some ti =>
        have hfe : findEdge g.inner_edges fi ti = none := by
          cases hfe0 : findEdge g.inner_edges fi ti with
          | none => rfl
          | some e1 =>
            exfalso
            simp [get_edge, hf, ht, hfe0] at hge
        have hst : (add_edge g f t ed true).2 =
            { g with inner_edges := g.inner_edges ++ [(fi, ti, ed)] } := by
          simp [add_edge, hge, get_node_index, hf, ht, save_to_file]
        rw [hst]
        have hge2 : get_edge
            { g with inner_edges := g.inner_edges ++ [(fi, ti, ed)] } f t =
            .ok ed := by
          rw [get_edge]
          simp only [hf, ht]
          rw [findEdge_append_self g.inner_edges fi ti ed hfe]
        simp [add_edge, hge2]

theorem remove_edge_idem (g : Graph N E I) (f t : I)
    (hnd : (g.inner_edges.map (fun e => (e.1, e.2.1))).Nodup) :
    (remove_edge (remove_edge g f t true).2 f t true).2 =
      (remove_edge g f t true).2 := by
  cases hf : mapLookup g.nodes_map f with
  | none =>
    have hst : (remove_edge g f t true).2 = g := by simp [remove_edge, hf]
    rw [hst]
    simp [remove_edge, hf]
  | some fi =>
    cases ht : mapLookup g.nodes_map t with
    | none =>
      have hst : (remove_edge g f t true).2 = g := by simp [remove_edge, hf, ht]
      rw [hst]
      simp [remove_edge, hf, ht]
    | some ti =>
      cases hfe : findEdge g.inner_edges fi ti with
      | none =>
        have hst : (remove_edge g f t true).2 = g := by
          simp [remove_edge, hf, ht, hfe]
        rw [hst]
        simp [remove_edge, hf, ht, hfe]
      | some e1 =>
        have hst : (remove_edge g f t true).2 =
            { g with inner_edges := removeEdgeList g.inner_edges fi ti } := by
          simp [remove_edge, hf, ht, hfe, save_to_file]
        rw [hst]
        have hfe2 : findEdge (removeEdgeList g.inner_edges fi ti) fi ti =
            none := findEdge_removeEdgeList_none g.inner_edges fi ti hnd
        simp [remove_edge, hf, ht, hfe2]

/-- Applying the same mutation twice (with successful snapshot saves)
reaches the same graph state as applying it once, provided the graph has
at most one edge per ordered index pair. -/
theorem applyMutation_idem (g : Graph N E I) (m : GraphMutation N E I)
    (hnd : (g.inner_edges.map (fun e => (e.1, e.2.1))).Nodup) :
    (applyMutation (applyMutation g m true).2 m true).2 =
      (applyMutation g m true).2 := by
  cases m with
  | AddEdge f t ed =>
    simp only [applyMutation_snd_addEdge]
    exact add_edge_idem g f t ed
  | RemoveEdge f t =>
    simp only [applyMutation_snd_removeEdge]
    exact remove_edge_idem g f t hnd
  | AddNode k n =>
    simp only [applyMutation_snd_addNode]
    exact add_node_idem g k n
  | RemoveNode k =>
    simp only [applyMutation_snd_removeNode]
    exact remove_node_idem g k

/-- C5 counterexample: on a starting state with two parallel edges
between the same slots (violating the one-edge-per-pair invariant, which
the claim's "every starting state" admits), delivering the same
RemoveEdge commit twice removes both copies, so the state after the
second delivery differs from the state after the first. -/
theorem C5_counterexample :
    (handleRemoteCommit (handleRemoteCommit stDup "h1"
        (.RemoveEdge 100 101) none true).2 "h1"
        (.RemoveEdge 100 101) none true).2 ≠
      (handleRemoteCommit stDup "h1" (.RemoveEdge 100 101) none true).2 := by
  decide

/-- C5 (amended): for starting states whose graph satisfies the
one-edge-per-ordered-pair structural invariant (which C8 shows holds for
every reachable state), delivering the same remote commit message twice
(with the store statement and snapshot saves succeeding) leaves the
LogStore table and the Graph state exactly as after the first delivery. -/
theorem C5_remote_commit_idempotent (st : SysState N E I) (hash : String)
    (m : GraphMutation N E I)
    (hnd : (st.graph.inner_edges.map (fun e => (e.1, e.2.1))).Nodup) :
    (handleRemoteCommit (handleRemoteCommit st hash m none true).2 hash m
      none true).2 = (handleRemoteCommit st hash m none true).2 := by
  cases hap : applyMutation st.graph m true with
  | mk res g2 =>
    have hst : (handleRemoteCommit st hash m none true).2 =
        ⟨(log_commit st.log hash m).2, g2⟩ := by
      simp [handleRemoteCommit, commit_mutation, hap]
    rw [hst]
    cases hap2 : applyMutation g2 m true with
    | mk res2 g3 =>
      have hst2 : (handleRemoteCommit
          (⟨(log_commit st.log hash m).2, g2⟩ : SysState N E I) hash m none
          true).2 = ⟨(log_commit (log_commit st.log hash m).2 hash m).2,
            g3⟩ := by
        simp [handleRemoteCommit, commit_mutation, hap2]
      rw [hst2]
      have hg3 : g3 = g2 := by
        have := applyMutation_idem st.graph m hnd
        rw [hap] at this
        simp only at this
        rw [hap2] at this
        exact this
      rw [hg3, log_commit_idem]

/-- Witness for C5 (amended) on a concrete invariant-satisfying state:
redelivering an AddNode commit is a no-op. -/
theorem C5_remote_commit_idempotent_witness :
    (handleRemoteCommit (handleRemoteCommit (⟨[], gTwo⟩ : SysState Nat Nat
      Nat) "h1" (.AddNode 102 12) none true).2 "h1" (.AddNode 102 12) none
      true).2 = (handleRemoteCommit (⟨[], gTwo⟩ : SysState Nat Nat Nat)
      "h1" (.AddNode 102 12) none true).2 :=
  C5_remote_commit_idempotent ⟨[], gTwo⟩ "h1" (.AddNode 102 12) (by decide)

theorem mapLookup_some_mem (m : List (I × Nat)) (k : I) (v : Nat)
    (h : mapLookup m k = some v) : ∃ p ∈ m, p.1 = k ∧ p.2 = v := by
  rw [mapLookup] at h
  cases hf : m.find? (fun p => p.1 == k) with
  | none => rw [hf] at h; simp at h
  | some p =>
    rw [hf] at h
    simp only [Option.map_some'] at h
    injection h with h
    exact ⟨p, List.mem_of_find?_eq_some hf,
      by simpa using List.find?_some hf, h⟩

theorem mapLookup_none_not_key (m : List (I × Nat)) (k : I)
    (h : mapLookup m k = none) : k ∉ m.map Prod.fst := by
  rw [mapLookup, Option.map_eq_none', List.find?_eq_none] at h
  intro hk
  rcases List.mem_map.mp hk with ⟨p, hp, hpk⟩
  exact (h p hp) (by simpa using hpk)

theorem mem_fst_filter_ne (ns : List (Nat × N)) (a idx : Nat)
    (ha : a ∈ ns.map Prod.fst) (hne : a ≠ idx) :
    a ∈ (ns.filter (fun p => !(p.1 == idx))).map Prod.fst := by
  rcases List.mem_map.mp ha with ⟨p, hp, hpa⟩
  refine List.mem_map.mpr ⟨p, List.mem_filter.mpr ⟨hp, ?_⟩, hpa⟩
  simp [hpa, hne]

theorem removeEdgeList_sublist (es : List (Nat × Nat × E)) (fi ti : Nat) :
    (removeEdgeList es fi ti).Sublist es := by
  induction es with
  | nil => simp [removeEdgeList]
  | cons e rest ih =>
    rw [removeEdgeList]
    by_cases hp : (e.1 == fi && e.2.1 == ti) = true
    · rw [if_pos hp]; exact List.sublist_cons_self e rest
    · rw [if_neg hp]; exact ih.cons₂ e

theorem pair_not_mem_of_findEdge_none (es : List (Nat × Nat × E))
    (fi ti : Nat) (h : findEdge es fi ti = none) :
    (fi, ti) ∉ es.map (fun e => (e.1, e.2.1)) := by
  rw [findEdge, List.find?_eq_none] at h
  intro hmem
  rcases List.mem_map.mp hmem with ⟨e, he, hep⟩
  apply h e he
  have h1 : e.1 = fi := congrArg Prod.fst hep
  have h2 : e.2.1 = ti := congrArg Prod.snd hep
  simp [h1, h2]

theorem GraphInv_add_node (g : Graph N E I) (k : I) (n : N) (sv : Bool)
    (hinv : GraphInv g) : GraphInv (add_node g k n sv).2 := by
  obtain ⟨h1, h2, h3, h4, h5, h6, h7⟩ := hinv
  cases hl : mapLookup g.nodes_map k with
  | some v =>
    have hst : (add_node g k n sv).2 = g := by simp [add_node, hl]
    rw [hst]; exact ⟨h1, h2, h3, h4, h5, h6, h7⟩
  | none =>
    cases sv with
    | false =>
      have hst : (add_node g k n false).2 = g := by
        simp [add_node, hl, save_to_file]
      rw [hst]; exact ⟨h1, h2, h3, h4, h5, h6, h7⟩
    | true =>
      have hst : (add_node g k n true).2 =
          { g with
            inner_nodes := g.inner_nodes ++ [(g.next_idx, n)]
            nodes_map := mapInsert g.nodes_map k g.next_idx
            next_idx := g.next_idx + 1 } := by
        simp [add_node, hl, save_to_file]
      rw [hst]
      have hfresh : g.next_idx ∉ g.inner_nodes.map Prod.fst := by
        intro hmem
        rcases List.mem_map.mp hmem with ⟨p, hp, hpe⟩
        exact absurd (hpe ▸ h7 p hp) (lt_irrefl _)
      refine ⟨?_, h2, ?_, ?_, ?_, ?_, ?_⟩
      · rw [List.map_append, List.nodup_append]
        refine ⟨h1, List.nodup_singleton _, fun a ha hb => ?_⟩
        simp at hb
        exact hfresh (hb ▸ ha)
      · intro e he
        rw [List.map_append]
        exact ⟨List.mem_append_left _ (h3 e he).1,
          List.mem_append_left _ (h3 e he).2⟩
      · simp only [mapInsert, List.map_cons, List.nodup_cons]
        exact ⟨mapLookup_none_not_key g.nodes_map k hl, h4⟩
      · simp only [mapInsert, List.map_cons, List.nodup_cons]
        refine ⟨fun hx => ?_, h5⟩
        rcases List.mem_map.mp hx with ⟨p, hp, hpx⟩
        exact hfresh (hpx ▸ h6 p hp)
      · intro p hp
        rw [List.map_append]
        rcases List.mem_cons.mp hp with hpk | hpm
        · rw [hpk]; exact List.mem_append_right _ (by simp)
        · exact List.mem_append_left _ (h6 p hpm)
      · intro p hp
        rcases List.mem_append.mp hp with hpo | hpn
        · exact Nat.lt_succ_of_lt (h7 p hpo)
        · simp at hpn; rw [hpn]; exact Nat.lt_succ_self _

theorem GraphInv_remove_node (g : Graph N E I) (k : I) (sv : Bool)
    (hinv : GraphInv g) : GraphInv (remove_node g k sv).2 := by
  obtain ⟨h1, h2, h3, h4, h5, h6, h7⟩ := hinv
  cases hl : mapLookup g.nodes_map k with
  | none =>
    have hst : (remove_node g k sv).2 = g := by simp [remove_node, hl]
    rw [hst]; exact ⟨h1, h2, h3, h4, h5, h6, h7⟩
  | some idx =>
    cases hfs : g.inner_nodes.find? (fun p => p.1 == idx) with
    | none =>
      have hri : removeNodeInner g idx = none := by
        simp [removeNodeInner, hfs]
      have hst : (remove_node g k sv).2 = g := by simp [remove_node, hl, hri]
      rw [hst]; exact ⟨h1, h2, h3, h4, h5, h6, h7⟩
    | some slot =>
      have hri : removeNodeInner g idx = some (slot.2,
          g.inner_nodes.filter (fun p => !(p.1 == idx)),
          g.inner_edges.filter (fun e => !(e.1 == idx) && !(e.2.1 == idx)))
          := by
        simp [removeNodeInner, hfs]
      cases sv with
      | false =>
        have hst : (remove_node g k false).2 = g := by
          simp [remove_node, hl, hri, save_to_file]
        rw [hst]; exact ⟨h1, h2, h3, h4, h5, h6, h7⟩
      | true =>
        have hst : (remove_node g k true).2 =
            { g with
              inner_nodes := g.inner_nodes.filter (fun p => !(p.1 == idx))
              inner_edges := g.inner_edges.filter
                (fun e => !(e.1 == idx) && !(e.2.1 == idx))
              nodes_map := mapRemove g.nodes_map k } := by
          simp [remove_node, hl, hri, save_to_file]
        rw [hst]
        refine ⟨?_, ?_, ?_, ?_, ?_, ?_, ?_⟩
        · exact List.Nodup.sublist
            ((List.filter_sublist g.inner_nodes).map Prod.fst) h1
        · exact List.Nodup.sublist
            ((List.filter_sublist g.inner_edges).map _) h2
        · intro e he
          rcases List.mem_filter.mp he with ⟨heo, hcond⟩
          rcases Bool.and_eq_true _ _ |>.mp hcond with ⟨hc1, hc2⟩
          have hne1 : e.1 ≠ idx := by simpa using hc1
          have hne2 : e.2.1 ≠ idx := by simpa using hc2
          exact ⟨mem_fst_filter_ne _ _ _ (h3 e heo).1 hne1,
            mem_fst_filter_ne _ _ _ (h3 e heo).2 hne2⟩
        · exact List.Nodup.sublist
            ((List.filter_sublist g.nodes_map).map Prod.fst) h4
        · exact List.Nodup.sublist
            ((List.filter_sublist g.nodes_map).map Prod.snd) h5
        · intro p hp
          rcases List.mem_filter.mp hp with ⟨hpo, hpcond⟩
          have hpk : p.1 ≠ k := by simpa using hpcond
          rcases mapLookup_some_mem g.nodes_map k idx hl with
            ⟨q, hq, hqk, hqv⟩
          have hpv : p.2 ≠ idx := by
            intro hpi
            apply hpk
            have : p = q :=
              List.inj_on_of_nodup_map h5 hpo hq (by rw [hpi, hqv])
            rw [this, hqk]
          exact mem_fst_filter_ne _ _ _ (h6 p hpo) hpv
        · intro p hp
          exact h7 p (List.mem_filter.mp hp).1

theorem GraphInv_add_edge (g : Graph N E I) (f t : I) (ed : E) (sv : Bool)
    (hinv : GraphInv g) : GraphInv (add_edge g f t ed sv).2 := by
  obtain ⟨h1, h2, h3, h4, h5, h6, h7⟩ := hinv
  cases hge : get_edge g f t with
  | ok v =>
    have hst : (add_edge g f t ed sv).2 = g := by simp [add_edge, hge]
    rw [hst]; exact ⟨h1, h2, h3, h4, h5, h6, h7⟩
  | error e0 =>
    cases hf : mapLookup g.nodes_map f with
    | none =>
      have hst : (add_edge g f t ed sv).2 = g := by
        simp [add_edge, hge, get_node_index, hf]
      rw [hst]; exact ⟨h1, h2, h3, h4, h5, h6, h7⟩
    | some fi =>
      cases ht : mapLookup g.nodes_map t with
      | none =>
        have hst : (add_edge g f t ed sv).2 = g := by
          simp [add_edge, hge, get_node_index, hf, ht]
        rw [hst]; exact ⟨h1, h2, h3, h4, h5, h6, h7⟩
      | some ti =>
        have hfe : findEdge g.inner_edges fi ti = none := by
          cases hfe0 : findEdge g.inner_edges fi ti with
          | none => rfl
          | some e1 => exfalso; simp [get_edge, hf, ht, hfe0] at hge
        cases sv with
        | false =>
          have hst : (add_edge g f t ed false).2 = g := by
            simp [add_edge, hge, get_node_index, hf, ht, save_to_file]
          rw [hst]; exact ⟨h1, h2, h3, h4, h5, h6, h7⟩
        | true =>
          have hst : (add_edge g f t ed true).2 =
              { g with inner_edges := g.inner_edges ++ [(fi, ti, ed)] } := by
            simp [add_edge, hge, get_node_index, hf, ht, save_to_file]
          rw [hst]
          have hfi : fi ∈ g.inner_nodes.map Prod.fst := by
            rcases mapLookup_some_mem g.nodes_map f fi hf with ⟨q, hq, _, hqv⟩
            exact hqv ▸ h6 q hq
          have hti : ti ∈ g.inner_nodes.map Prod.fst := by
            rcases mapLookup_some_mem g.nodes_map t ti ht with ⟨q, hq, _, hqv⟩
            exact hqv ▸ h6 q hq
          refine ⟨h1, ?_, ?_, h4, h5, h6, h7⟩
          · rw [List.map_append, List.nodup_append]
            refine ⟨h2, by simp, fun a ha hb => ?_⟩
            simp at hb
            exact pair_not_mem_of_findEdge_none g.inner_edges fi ti hfe
              (hb ▸ ha)
          · intro e he
            rcases List.mem_append.mp he with heo | hen
            · exact h3 e heo
            · simp at hen
              rw [hen]
              exact ⟨hfi, hti⟩

theorem GraphInv_remove_edge (g : Graph N E I) (f t : I) (sv : Bool)
    (hinv : GraphInv g) : GraphInv (remove_edge g f t sv).2 := by
  obtain ⟨h1, h2, h3, h4, h5, h6, h7⟩ := hinv
  cases hf : mapLookup g.nodes_map f with
  | none =>
    have hst : (remove_edge g f t sv).2 = g := by simp [remove_edge, hf]
    rw [hst]; exact ⟨h1, h2, h3, h4, h5, h6, h7⟩
  | some fi =>
    cases ht : mapLookup g.nodes_map t with
    | none =>
      have hst : (remove_edge g f t sv).2 = g := by simp [remove_edge, hf, ht]
      rw [hst]; exact ⟨h1, h2, h3, h4, h5, h6, h7⟩
    | some ti =>
      cases hfe : findEdge g.inner_edges fi ti with
      | none =>
        have hst : (remove_edge g f t sv).2 = g := by
          simp [remove_edge, hf, ht, hfe]
        rw [hst]; exact ⟨h1, h2, h3, h4, h5, h6, h7⟩
      | some e1 =>
        cases sv with
        | false =>
          have hst : (remove_edge g f t false).2 = g := by
            simp [remove_edge, hf, ht, hfe, save_to_file]
          rw [hst]; exact ⟨h1, h2, h3, h4, h5, h6, h7⟩
        | true =>
          have hst : (remove_edge g f t true).2 =
              { g with inner_edges := removeEdgeList g.inner_edges fi ti }
              := by
            simp [remove_edge, hf, ht, hfe, save_to_file]
          rw [hst]
          have hsub := removeEdgeList_sublist (E := E) g.inner_edges fi ti
          refine ⟨h1, ?_, ?_, h4, h5, h6, h7⟩
          · exact List.Nodup.sublist (hsub.map _) h2
          · intro e he
            exact h3 e (hsub.subset he)

/-- C8: the graph structural invariants — at most one node per key, at
most one edge per ordered pair, every edge referencing two existing node
slots (plus the bookkeeping conjuncts that make them inductive) — hold
for the empty graph and are preserved by every mutation, on success and
on every error path (including snapshot-save failure). -/
theorem C8_invariants_preserved (g : Graph N E I) (m : GraphMutation N E I)
    (sv : Bool) :
    GraphInv (Graph.empty N E I) ∧
    (GraphInv g → GraphInv (applyMutation g m sv).2) := by
  constructor
  · simp [GraphInv, Graph.empty]
  · intro hinv
    cases m with
    | AddEdge f t ed =>
      rw [applyMutation_snd_addEdge]
      exact GraphInv_add_edge g f t ed sv hinv
    | RemoveEdge f t =>
      rw [applyMutation_snd_removeEdge]
      exact GraphInv_remove_edge g f t sv hinv
    | AddNode k n =>
      rw [applyMutation_snd_addNode]
      exact GraphInv_add_node g k n sv hinv
    | RemoveNode k =>
      rw [applyMutation_snd_removeNode]
      exact GraphInv_remove_node g k sv hinv

/-- Witness for C8: the invariants hold after a concrete AddNode applied
to the empty graph. -/
theorem C8_invariants_preserved_witness :
    GraphInv (applyMutation (Graph.empty Nat Nat Nat)
      (.AddNode 1 2) true).2 :=
  (C8_invariants_preserved (Graph.empty Nat Nat Nat) (.AddNode 1 2)
    true).2 (by decide)

end GraphStore
